import Mathlib

/-
Verification development for the `celine` quiz-generation repository.

The repository consists of two driver scripts, `celine.mdl.py` and
`CM4_v_hum.mdl.py`, which define a problem function, an input space, a
cloze-question template, and then call the quiz-generation engine
(`MdlClz.generate_quiz` / `MdlClz.cprod`).  The engine itself and the
psychrometric library (`psychro`) are not part of the visible sources, so
they are modelled from the specification (each such definition carries a
doc comment starting with `Modelled from the spec:`); everything defined
in the two scripts is embedded directly from the source.

Machine floats are embedded as rationals (ℚ); `np.pi` is embedded as the
exact rational value of the IEEE-754 double `3.141592653589793`.
-/

set_option autoImplicit false

namespace Celine

/-- A parameter (or merged) value: a numeric scalar, or a short numeric
vector (e.g. the paired temperature+humidity reading `air_i`). -/
inductive PVal where
  | num (q : ℚ)
  | vec (qs : List ℚ)
deriving DecidableEq, Inhabited

/-- A model-output value: a finite numeric value, or a non-finite result
(`NaN`/undefined), which the engine must reject. -/
inductive MFloat where
  | nan
  | fin (q : ℚ)
deriving DecidableEq, Inhabited

def MFloat.isNan : MFloat → Bool
  | .nan => true
  | .fin _ => false

/-- Mapping from parameter name to its ordered candidate values. -/
abbrev ParameterSpace : Type := List (String × List PVal)

/-- One concrete assignment of a value to every parameter name. -/
abbrev Combination : Type := List (String × PVal)

/-- Mapping from output name to a computed (possibly non-finite) value. -/
abbrev OutputSet : Type := List (String × MFloat)

/-- Association-list lookup by name (models Python `dict` access). -/
def lookupA {α : Type} : List (String × α) → String → Option α
  | [], _ => none
  | (n, v) :: rest, name => if n = name then some v else lookupA rest name

/-- Look a scalar numeric value up in a combination (Python `x[k]` where a
scalar is expected). -/
def lookupNum (x : List (String × PVal)) (name : String) : Option ℚ :=
  match lookupA x name with
  | some (.num q) => some q
  | _ => none

/-- Look a length-2 vector value up in a combination (Python unpacking
`θo, φo = x[k]`). -/
def lookupVec2 (x : List (String × PVal)) (name : String) : Option (ℚ × ℚ) :=
  match lookupA x name with
  | some (.vec [a, b]) => some (a, b)
  | _ => none

/-! ### Decimal digit strings -/

/-- The decimal digit character for `d % 10`. -/
def digitChar (d : Nat) : Char := Char.ofNat (48 + d % 10)

/-- Little-endian digit characters of `n`, with explicit structural fuel. -/
def natCharsAux : Nat → Nat → List Char
  | 0, _ => []
  | _, 0 => []
  | fuel + 1, n + 1 => digitChar ((n + 1) % 10) :: natCharsAux fuel ((n + 1) / 10)

/-- Decimal representation of a natural number (models Python `str(int)`). -/
def natChars (n : Nat) : List Char :=
  if n = 0 then ['0'] else (natCharsAux n n).reverse

/-- Numeric value of a big-endian decimal digit string. -/
def charsVal (cs : List Char) : Nat :=
  cs.foldl (fun a c => 10 * a + (c.toNat - 48)) 0

/-- Parse a nonempty all-digit string back to a natural number. -/
def charsToNat (cs : List Char) : Option Nat :=
  if cs ≠ [] ∧ cs.all Char.isDigit then some (charsVal cs) else none

/-! ### Fixed-point numeric formatting -/

/-- Floor of a rational, computed on the numerator and denominator. -/
def qfloor (q : ℚ) : ℤ := Int.fdiv q.num q.den

/-- Round to the nearest integer, ties to even (the rounding applied by
Python/NumPy fixed-point float formatting). -/
def roundHalfEven (q : ℚ) : ℤ :=
  let f := qfloor q
  let r := q - f
  if r < 1 / 2 then f
  else if 1 / 2 < r then f + 1
  else if f % 2 = 0 then f else f + 1

/-- Fixed-point decimal formatting of a rational to `prec` decimal places
(models Python format specifiers such as `.1f` and `.0f`). -/
def formatFixed (prec : Nat) (q : ℚ) : List Char :=
  let n := roundHalfEven (q * (10 : ℚ) ^ prec)
  let ds := natChars n.natAbs
  let ds := List.replicate (prec + 1 - ds.length) '0' ++ ds
  let ip := ds.take (ds.length - prec)
  let fp := ds.drop (ds.length - prec)
  (if n < 0 then ['-'] else []) ++ ip ++ (if prec = 0 then [] else '.' :: fp)

/-- Fractional decimal digits of `q` (assumed in `[0, 1)`), up to `fuel`
digits. -/
def fracChars : Nat → ℚ → List Char
  | 0, _ => []
  | fuel + 1, q =>
    if q = 0 then []
    else
      let d := qfloor (q * 10)
      digitChar d.natAbs :: fracChars fuel (q * 10 - (d : ℚ))

/-- Modelled from the spec: plain interpolation of a numeric value without
an explicit format specifier (`MdlClz`'s renderer is not among the visible
sources).  Integers render with no decimal point; other rationals render
with their decimal expansion (up to 40 digits). -/
def noFmtRepr (q : ℚ) : List Char :=
  let sign := if q < 0 then ['-'] else []
  let aq := |q|
  let ip := qfloor aq
  let fp := aq - (ip : ℚ)
  if fp = 0 then sign ++ natChars ip.natAbs
  else sign ++ natChars ip.natAbs ++ '.' :: fracChars 40 fp

/-- Modelled from the spec: plain interpolation of a vector value without
an index (renders the elements space-separated in brackets, like the
string form of a small NumPy array). -/
def vecRepr (qs : List ℚ) : List Char :=
  '[' :: (List.intersperse [' '] (qs.map noFmtRepr)).flatten ++ [']']

/-! ### Errors and the template AST -/

/-- Modelled from the spec: the engine's error kinds (§7 of the spec; the
engine `MdlClz` is not among the visible sources). -/
inductive EngineError where
  | configurationError (msg : String)
  | modelEvaluationError (idx : Nat)
  | templateBindingError (name : String)
  | serializationError (msg : String)
deriving DecidableEq, Inhabited

/-- A numeric format specifier, e.g. `.1f` is `fixed 1`. -/
inductive FormatSpec where
  | fixed (prec : Nat)
deriving DecidableEq, Inhabited

/-- Modelled from the spec: a template parsed into its closed set of
placeholder variants (§4.3/§9): literal text, plain interpolation
(optional index, optional format), and embedded-answer fields
(group, source name, declared precision, declared tolerance). -/
inductive Token where
  | lit (s : String)
  | plain (name : String) (idx : Option Nat) (fmt : Option FormatSpec)
  | answer (group : Nat) (name : String) (fmt : FormatSpec) (tol : Nat)
deriving DecidableEq, Inhabited

abbrev Template : Type := List Token

/-- The name a template token refers to, if any. -/
def refName : Token → Option String
  | .lit _ => none
  | .plain n _ _ => some n
  | .answer _ n _ _ => some n

/-- A resolved embedded-answer field: its group, its expected-value string
(already formatted to the declared precision), and its tolerance. -/
structure RenderedAnswer where
  group : Nat
  value : List Char
  tol : Nat
deriving DecidableEq, Inhabited

/-- An opening brace character (kept out of string literals). -/
def lbrace : Char := Char.ofNat 123

/-- A closing brace character (kept out of string literals). -/
def rbrace : Char := Char.ofNat 125

/-- The serialized form of a resolved answer field in the Moodle cloze
syntax: an opening brace, the group, `:NUMERICAL:=`, the expected-value
string, `:`, the tolerance, and a closing brace. -/
def clozeChars (a : RenderedAnswer) : List Char :=
  lbrace ::
    (natChars a.group ++
      ':' :: (("NUMERICAL:=").data ++ (a.value ++ ':' :: (natChars a.tol ++ [rbrace]))))

/-- The scalar an answer field reads from a resolved value. -/
def numOf : PVal → ℚ
  | .num q => q
  | .vec qs => qs.getD 0 0

/-- Modelled from the spec: rendering of one template token against the
merged values (§4.3).  A reference to an absent name is a fatal
`templateBindingError` naming the missing field; an answer token yields
its cloze text and records the resolved answer. -/
def renderToken (vals : List (String × PVal)) : Token → Except EngineError (List Char × List RenderedAnswer)
  | .lit s => .ok (s.data, [])
  | .plain name idx fmt =>
    match lookupA vals name with
    | none => .error (.templateBindingError name)
    | some pv =>
      let cs :=
        match pv, idx, fmt with
        | .num q, _, some (.fixed p) => formatFixed p q
        | .num q, _, none => noFmtRepr q
        | .vec qs, some i, some (.fixed p) => formatFixed p (qs.getD i 0)
        | .vec qs, some i, none => noFmtRepr (qs.getD i 0)
        | .vec qs, none, _ => vecRepr qs
      .ok (cs, [])
  | .answer g name fmt tol =>
    match lookupA vals name with
    | none => .error (.templateBindingError name)
    | some pv =>
      match fmt with
      | .fixed p =>
        let a : RenderedAnswer := ⟨g, formatFixed p (numOf pv), tol⟩
        .ok (clozeChars a, [a])

/-- Modelled from the spec: render a whole template left to right,
concatenating text and collecting the resolved answer fields in order of
appearance (§4.3). -/
def render (tmpl : Template) (vals : List (String × PVal)) : Except EngineError (List Char × List RenderedAnswer) :=
  match tmpl with
  | [] => .ok ([], [])
  | t :: ts =>
    match renderToken vals t, render ts vals with
    | .error e, _ => .error e
    | .ok _, .error e => .error e
    | .ok (s, as), .ok (rest, ras) => .ok (s ++ rest, as ++ ras)

/-! ### Parsing an answer field back out of the artifact -/

/-- Split a character list at the first occurrence of `c`. -/
def takeUntil (c : Char) : List Char → Option (List Char × List Char)
  | [] => none
  | x :: xs =>
    if x = c then some ([], xs)
    else
      match takeUntil c xs with
      | some (a, b) => some (x :: a, b)
      | none => none

/-- Consume an expected literal character sequence. -/
def dropExpect : List Char → List Char → Option (List Char)
  | [], rest => some rest
  | _ :: _, [] => none
  | e :: es, c :: cs => if c = e then dropExpect es cs else none

/-- Parse one serialized cloze answer field back into its group, its
expected-value string, and its tolerance. -/
def parseCloze (cs : List Char) : Option (Nat × List Char × Nat) :=
  (dropExpect [lbrace] cs).bind fun rest =>
  (takeUntil ':' rest).bind fun p1 =>
  (charsToNat p1.1).bind fun g =>
  (dropExpect (("NUMERICAL:=").data) p1.2).bind fun rest2 =>
  (takeUntil ':' rest2).bind fun p2 =>
  (takeUntil rbrace p2.2).bind fun p3 =>
  (charsToNat p3.1).bind fun t =>
  if p3.2 = [] then some (g, p2.1, t) else none

/-! ### Enumeration -/

/-- The enumeration policy for the input space (§4.1 of the spec). -/
inductive EnumPolicy where
  | zipped
  | crossProduct
deriving DecidableEq

/-- Modelled from the spec: the full Cartesian product of the candidate
sequences, first parameter varying slowest (§4.1 policy (b)). -/
def cartesian : List (String × List PVal) → List Combination
  | [] => [[]]
  | (n, vs) :: rest =>
    let tails := cartesian rest
    (vs.map (fun v => tails.map (fun tail => (n, v) :: tail))).flatten

/-- Modelled from the spec: the enumeration operation `cprod` of the quiz
engine (`MdlClz` is not among the visible sources).  Under the zipped
policy it produces one combination per common index and fails fast with a
`configurationError` when the candidate sequence lengths differ; under the
cross-product policy it produces the Cartesian product (§4.1). -/
def cprod (policy : EnumPolicy) (space : ParameterSpace) : Except EngineError (List Combination) :=
  match policy with
  | .crossProduct => .ok (cartesian space)
  | .zipped =>
    match space with
    | [] => .ok []
    | (n0, vs0) :: rest =>
      if ((n0, vs0) :: rest).all (fun p => p.2.length = vs0.length) then
        .ok ((List.range vs0.length).map
          (fun i => ((n0, vs0) :: rest).map (fun p => (p.1, p.2.getD i (PVal.num 0)))))
      else .error (.configurationError "zipped enumeration requires equal parameter sequence lengths")

/-! ### The pipeline -/

/-- Modelled from the spec: invoke the model on each combination in order,
surfacing a `modelEvaluationError` carrying the combination's index as
soon as the model raises (`none`) or returns a non-finite value (§7). -/
def invokeAll (model : Combination → Option OutputSet) : Nat → List Combination → Except EngineError (List OutputSet)
  | _, [] => .ok []
  | i, cb :: cbs =>
    match model cb with
    | none => .error (.modelEvaluationError i)
    | some outs =>
      if outs.any (fun p => p.2.isNan) then .error (.modelEvaluationError i)
      else
        match invokeAll model (i + 1) cbs with
        | .error e => .error e
        | .ok rest => .ok (outs :: rest)

/-- Modelled from the spec: the merged values a question is rendered from:
the input combination together with the (finite) model outputs. -/
def mergedVals (cb : Combination) (outs : OutputSet) : List (String × PVal) :=
  cb ++ outs.filterMap (fun p =>
    match p.2 with
    | .fin q => some (p.1, PVal.num q)
    | .nan => none)

/-- Modelled from the spec: render the template once per combination, in
enumeration order (§4.3). -/
def renderAll (tmpl : Template) : List (Combination × OutputSet) → Except EngineError (List (List Char × List RenderedAnswer))
  | [] => .ok []
  | (cb, o) :: rest =>
    match render tmpl (mergedVals cb o), renderAll tmpl rest with
    | .error e, _ => .error e
    | .ok _, .error e => .error e
    | .ok r, .ok rs => .ok (r :: rs)

/-- One rendered question: its serialized name, its body text, and its
resolved answer fields.  Immutable once rendered. -/
structure QuestionItem where
  name : List Char
  body : List Char
  answers : List RenderedAnswer
deriving DecidableEq, Inhabited

/-- The ordered sequence of rendered questions for one quiz name. -/
structure QuizDocument where
  questions : List QuestionItem
deriving DecidableEq, Inhabited

/-- Modelled from the spec: tag each rendered question with the name
`{base}_{1-based position}` (§4.4); `i` is the number of questions already
numbered. -/
def numberItems (base : List Char) (i : Nat) : List (List Char × List RenderedAnswer) → List QuestionItem
  | [] => []
  | (b, a) :: rest => ⟨base ++ '_' :: natChars (i + 1), b, a⟩ :: numberItems base (i + 1) rest

/-- Modelled from the spec: the quiz-generation engine entry point
`MdlClz.generate_quiz` (not among the visible sources): enumerate the
input space, invoke the model per combination, render the template per
combination, and collect the numbered questions (§2, §4). -/
def generate_quiz (policy : EnumPolicy) (question_name : String)
    (model : Combination → Option OutputSet) (x_ranges : ParameterSpace)
    (text : Template) : Except EngineError QuizDocument :=
  match cprod policy x_ranges with
  | .error e => .error e
  | .ok combos =>
    match invokeAll model 0 combos with
    | .error e => .error e
    | .ok outs =>
      match renderAll text (combos.zip outs) with
      | .error e => .error e
      | .ok rendered => .ok ⟨numberItems question_name.data 0 rendered⟩

/-! ### Serialization -/

/-- XML escaping of one character (§4.4: reserved markup characters). -/
def xmlEscapeChar (c : Char) : List Char :=
  if c = '&' then ("&amp;").data
  else if c = '<' then ("&lt;").data
  else if c = '>' then ("&gt;").data
  else [c]

/-- XML escaping of a character sequence. -/
def xmlEscape (cs : List Char) : List Char :=
  (cs.map xmlEscapeChar).flatten

/-- Modelled from the spec: serialize one question as a Moodle-XML cloze
question entry (§4.4, §6). -/
def serializeQuestion (q : QuestionItem) : List Char :=
  ("<question type=\"cloze\"><name><text>").data ++ xmlEscape q.name ++
    ("</text></name><questiontext format=\"markdown\"><text>").data ++ xmlEscape q.body ++
    ("</text></questiontext></question>").data

/-- Modelled from the spec: serialize the whole document (§4.4). -/
def serializeDoc (doc : QuizDocument) : List Char :=
  ("<quiz>").data ++ (doc.questions.map serializeQuestion).flatten ++ ("</quiz>").data

/-- The full pipeline: on success the artifact's bytes, on failure no
artifact at all (§4.4 atomicity). -/
def runPipeline (policy : EnumPolicy) (question_name : String)
    (model : Combination → Option OutputSet) (x_ranges : ParameterSpace)
    (text : Template) : Option (List Char) :=
  match generate_quiz policy question_name model x_ranges text with
  | .ok doc => some (serializeDoc doc)
  | .error _ => none

/-- Whether the model fails on a combination: it raises (`none`) or some
output value is non-finite. -/
def failsB (model : Combination → Option OutputSet) (cb : Combination) : Bool :=
  match model cb with
  | none => true
  | some outs => outs.any (fun p => p.2.isNan)

/-- A small sample model used to exercise the engine on concrete data. -/
def sampleModel : Combination → Option OutputSet :=
  fun _ => some [("y", .fin (7 / 2))]

/-- A small sample input space used to exercise the engine. -/
def sampleSpace : ParameterSpace := [("a", [.num 1, .num 2])]

/-- A small sample template used to exercise the engine. -/
def sampleTemplate : Template := [Token.answer 2 ("y") (.fixed 0) 3]

/-- The document the engine produces on the sample inputs. -/
def sampleDoc : QuizDocument :=
  match generate_quiz .zipped "w" sampleModel sampleSpace sampleTemplate with
  | .ok doc => doc
  | .error _ => ⟨[]⟩

/-! ### Embedding of `celine.mdl.py` -/

namespace celine

/-- The IEEE-754 double value of `np.pi` (`3.141592653589793`), as an
exact rational. -/
def npPi : ℚ := 884279719003555 / 281474976710656

/-- `problem_fun` of `celine.mdl.py`: reads `ρ`, `d`, `w` from the input
combination and returns the mass flow `m = ρ * w * π / 4 * d² / 1e6`.
Returns `none` when an input key is absent (Python `KeyError`). -/
def problem_fun (x : Combination) : Option OutputSet :=
  match lookupNum x "ρ", lookupNum x "d", lookupNum x "w" with
  | some ρ, some d, some w =>
    let m := ρ * w * npPi / 4 * d ^ 2 / 1000000
    some [("m", .fin m)]
  | _, _, _ => none

/-- `x_ranges` of `celine.mdl.py`. -/
def x_ranges : ParameterSpace :=
  [("ρ", [.num 887, .num 1000]),
   ("d", [.num 156, .num 40]),
   ("w", [.num (3 / 2), .num 2])]

/-- `text` of `celine.mdl.py`, parsed into the template AST: three plain
interpolations (`ρ`, `d`, `w`, no format spec) and one embedded-answer
field (group 1, value `m` at precision `.1f`, tolerance 5). -/
def text : Template :=
  [Token.lit ("\n**Notes :**\n\nA fluid of density ρ "),
   Token.plain ("ρ") none none,
   Token.lit (" kg/m3 flows in a pipe with diameter d = "),
   Token.plain ("d") none none,
   Token.lit (" mm.\nThe average velocity in the pipe is "),
   Token.plain ("w") none none,
   Token.lit (" m/s.\n\nCalculate the mass flow in the pipe\n"),
   Token.answer 1 ("m") (.fixed 1) 5,
   Token.lit (" kg/s.\n")]

/-- `question_name` of `celine.mdl.py`. -/
def question_name : String := "celine"

/-- The quiz generated by `celine.mdl.py` (the enumeration policy of the
missing engine is left as a parameter; the spec leaves it open per call
site). -/
def quiz (policy : EnumPolicy) : Except EngineError QuizDocument :=
  generate_quiz policy question_name problem_fun x_ranges text

end celine

/-! ### Embedding of `CM4_v_hum.mdl.py` -/

namespace CM4_v_hum

/-- `c = 1e3` J/(kg·K), air specific heat. -/
def c : ℚ := 1000

/-- `l = 2496e3` J/kg, latent heat. -/
def l : ℚ := 2496000

/-- `np.linalg.solve` on a 2×2 system, by Cramer's rule; `none` models the
`LinAlgError` raised on a singular matrix. -/
def linsolve2 (a00 a01 a10 a11 b0 b1 : ℚ) : Option (ℚ × ℚ) :=
  let det := a00 * a11 - a01 * a10
  if det = 0 then none
  else some ((b0 * a11 - a01 * b1) / det, (a00 * b1 - a10 * b0) / det)

/-- `vap_hum` of `CM4_v_hum.mdl.py`: builds the 2×2 system
`A = [[m*c, 0], [0, m*l]]`, `b = [m*c*θo, m*l*wo + QlVH]` (the source
fills a zero matrix on the diagonal only) and solves it.  The inlet
humidity `wo = psy.w(θo, φo)` comes from the `psychro` module, which is
not among the visible sources, so it is taken as a function parameter. -/
def vap_hum (psyW : ℚ → ℚ → ℚ) (m θo φo QlVH : ℚ) : Option (ℚ × ℚ) :=
  let wo := psyW θo φo
  linsolve2 (m * c) 0 0 (m * l) (m * c * θo) (m * l * wo + QlVH)

/-- `problem_fun` of `CM4_v_hum.mdl.py`: reads `m`, `air_i = (θo, φo)` and
`mv`, rescales `φo` to a fraction and `mv` to kg/s, computes the latent
load `QlVH = l * mv`, solves `vap_hum`, and returns the outlet temperature
`θVH`, the outlet relative humidity `φVH = psy.φ(θVH, wVH) * 100`, and the
latent load in kW.  `psy.w` and `psy.φ` (module `psychro`, not among the
visible sources) are function parameters. -/
def problem_fun (psyW psyPhi : ℚ → ℚ → ℚ) (x : Combination) : Option OutputSet :=
  match lookupNum x "m", lookupVec2 x "air_i", lookupNum x "mv" with
  | some m, some (θo, φo0), some mv0 =>
    let φo := φo0 / 100
    let mv := mv0 / 3600
    let QlVH := l * mv
    match vap_hum psyW m θo φo QlVH with
    | none => none
    | some sol =>
      some [("θVH", .fin sol.1),
            ("φVH", .fin (psyPhi sol.1 sol.2 * 100)),
            ("QlVH", .fin (QlVH / 1000))]
  | _, _, _ => none

/-- `x_ranges` of `CM4_v_hum.mdl.py`. -/
def x_ranges : ParameterSpace :=
  [("m", [.num (1275 / 100), .num (105 / 10)]),
   ("air_i", [.vec [35, 40], .vec [30, 50]]),
   ("mv", [.num 200, .num 150])]

/-- `text` of `CM4_v_hum.mdl.py`, parsed into the template AST: plain
interpolations `m:.1f`, `air_i[0]:.0f`, `air_i[1]:.0f`, `mv:.1f`, and
three embedded-answer fields for `θVH`, `φVH`, `QlVH` (all at precision
`.1f`, tolerances 2, 5, 5). -/
def text : Template :=
  [Token.lit ("\n**Notes :**\n\n- Dans l’enthalpie de la vapeur, on néglige la chaleur sensible.\n\n- La chaleur latente de vaporisation est $$l_v$$ = 2496 kJ/kg.\n\n**Données**\n\nOn considère que le débit d’air de "),
   Token.plain ("m") none (some (.fixed 1)),
   Token.lit (" kg air sec par seconde avec les\ncaractéristiques ("),
   Token.plain ("air_i") (some 0) (some (.fixed 0)),
   Token.lit (" °C, "),
   Token.plain ("air_i") (some 1) (some (.fixed 0)),
   Token.lit (" %) est humidifié par\nl'injection de "),
   Token.plain ("mv") none (some (.fixed 1)),
   Token.lit (" kg de vapeur d'eau par heure.\n\n**Trouvez :**\n\n- La température de l'air à la sortie de l'hudificateur :\n$$\\theta_\x7bVH\x7d$$ = "),
   Token.answer 1 ("θVH") (.fixed 1) 2,
   Token.lit (" °C.\n\n- L'humidité relative de l'air à la sortie de l'hudificateur :\n$$\\varphi_\x7bVH\x7d$$ = "),
   Token.answer 1 ("φVH") (.fixed 1) 5,
   Token.lit (" %.\n\n- La puissance électrique necessaire pour évaporer l'eau injectée sous la forme\nde la vapeur :\n$$\\dot\x7bQ\x7d_\x7bl,VH\x7d$$ = "),
   Token.answer 1 ("QlVH") (.fixed 1) 5,
   Token.lit (" kW.\n")]

/-- `question_name` of `CM4_v_hum.mdl.py`. -/
def question_name : String := "CM4_v_hum"

/-- The quiz generated by `CM4_v_hum.mdl.py` (enumeration policy and the
`psychro` functions as parameters). -/
def quiz (policy : EnumPolicy) (psyW psyPhi : ℚ → ℚ → ℚ) : Except EngineError QuizDocument :=
  generate_quiz policy question_name (problem_fun psyW psyPhi) x_ranges text

end CM4_v_hum

/-! ### Lemmas: decimal digit strings -/

/-- A `digitChar` is a decimal digit character with the expected code. -/
theorem digitChar_toNat (d : Nat) : (digitChar d).toNat = 48 + d % 10 := by
  have h : d % 10 < 10 := Nat.mod_lt _ (by decide)
  unfold digitChar
  set e := d % 10 with he
  interval_cases e <;> decide

/-- A `digitChar` satisfies `Char.isDigit`. -/
theorem digitChar_isDigit (d : Nat) : (digitChar d).isDigit = true := by
  have h : d % 10 < 10 := Nat.mod_lt _ (by decide)
  unfold digitChar
  set e := d % 10 with he
  interval_cases e <;> decide

/-- Every character produced by `natCharsAux` is a digit. -/
theorem natCharsAux_digits (fuel : Nat) : ∀ (n : Nat), ∀ c ∈ natCharsAux fuel n, c.isDigit = true := by
  induction fuel with
  | zero => intro n c hc; simp [natCharsAux] at hc
  | succ fuel ih =>
    intro n c hc
    cases n with
    | zero => simp [natCharsAux] at hc
    | succ m =>
      simp only [natCharsAux, List.mem_cons] at hc
      rcases hc with rfl | hc
      · exact digitChar_isDigit _
      · exact ih _ c hc

/-- Every character of a decimal representation is a digit. -/
theorem natChars_digits (n : Nat) : ∀ c ∈ natChars n, c.isDigit = true := by
  unfold natChars
  split
  · intro c hc
    simp only [List.mem_singleton] at hc
    subst hc; decide
  · intro c hc
    rw [List.mem_reverse] at hc
    exact natCharsAux_digits _ _ c hc

theorem charsVal_append_singleton (l : List Char) (x : Char) :
    charsVal (l ++ [x]) = 10 * charsVal l + (x.toNat - 48) := by
  unfold charsVal
  rw [List.foldl_append]
  rfl

/-- The numeric value of the digits produced by `natCharsAux` is the
original number. -/
theorem charsVal_natCharsAux (fuel : Nat) : ∀ (n : Nat), n ≤ fuel →
    charsVal (natCharsAux fuel n).reverse = n := by
  induction fuel with
  | zero =>
    intro n h
    interval_cases n
    simp [natCharsAux, charsVal]
  | succ fuel ih =>
    intro n h
    cases n with
    | zero => simp [natCharsAux, charsVal]
    | succ m =>
      have hd : (m + 1) / 10 ≤ fuel := by
        have := Nat.div_lt_self (Nat.succ_pos m) (by decide : 1 < 10)
        omega
      simp only [natCharsAux, List.reverse_cons]
      rw [charsVal_append_singleton, ih _ hd, digitChar_toNat]
      omega

theorem natCharsAux_ne_nil (fuel n : Nat) (h1 : 1 ≤ n) (h2 : n ≤ fuel) :
    natCharsAux fuel n ≠ [] := by
  cases fuel with
  | zero => omega
  | succ fuel =>
    cases n with
    | zero => omega
    | succ m => simp [natCharsAux]

/-- Parsing a decimal representation recovers the number. -/
theorem charsToNat_natChars (n : Nat) : charsToNat (natChars n) = some n := by
  rcases Nat.eq_zero_or_pos n with rfl | hp
  · decide
  · have hne : natChars n ≠ [] := by
      unfold natChars
      rw [if_neg (by omega)]
      simp only [ne_eq, List.reverse_eq_nil_iff]
      exact natCharsAux_ne_nil n n hp le_rfl
    have hdig : (natChars n).all Char.isDigit = true := by
      rw [List.all_eq_true]
      intro c hc
      exact natChars_digits n c hc
    unfold charsToNat
    rw [if_pos ⟨hne, hdig⟩]
    congr 1
    unfold natChars
    rw [if_neg (by omega)]
    exact charsVal_natCharsAux n n le_rfl

/-- Decimal representations of distinct numbers are distinct. -/
theorem natChars_injective : Function.Injective natChars := by
  intro a b h
  have ha := charsToNat_natChars a
  rw [h, charsToNat_natChars b] at ha
  exact (Option.some_injective _ ha).symm

/-! ### Lemmas: the cloze parser -/

theorem takeUntil_append (c : Char) (pre rest : List Char) (h : c ∉ pre) :
    takeUntil c (pre ++ c :: rest) = some (pre, rest) := by
  induction pre with
  | nil => simp [takeUntil]
  | cons x xs ih =>
    have hx : ¬ (x = c) := fun hx => h (hx ▸ List.mem_cons_self x xs)
    simp only [List.cons_append, takeUntil, if_neg hx, List.append_eq]
    rw [ih (fun hm => h (List.mem_cons_of_mem _ hm))]

theorem dropExpect_append (e rest : List Char) : dropExpect e (e ++ rest) = some rest := by
  induction e with
  | nil => simp [dropExpect]
  | cons x xs ih => simp [dropExpect, ih]

theorem colon_not_digit : (':' : Char).isDigit = false := by decide

theorem rbrace_not_digit : rbrace.isDigit = false := by decide

/-- Parsing a serialized answer field recovers exactly its group, its
expected-value string and its tolerance, provided the value string
contains no field separator and no closing brace. -/
theorem parseCloze_clozeChars (a : RenderedAnswer)
    (hv : ∀ c ∈ a.value, ¬ (c = ':') ∧ ¬ (c = rbrace)) :
    parseCloze (clozeChars a) = some (a.group, a.value, a.tol) := by
  have hg : ':' ∉ natChars a.group := fun hm => by
    have := natChars_digits _ _ hm
    rw [colon_not_digit] at this
    exact Bool.false_ne_true this
  have ht : rbrace ∉ natChars a.tol := fun hm => by
    have := natChars_digits _ _ hm
    rw [rbrace_not_digit] at this
    exact Bool.false_ne_true this
  have hvc : ':' ∉ a.value := fun hm => (hv _ hm).1 rfl
  have hsplit : clozeChars a =
      [lbrace] ++ (natChars a.group ++
        ':' :: (("NUMERICAL:=").data ++ (a.value ++ ':' :: (natChars a.tol ++ [rbrace])))) := rfl
  rw [parseCloze, hsplit, dropExpect_append]
  simp only [Option.some_bind]
  rw [takeUntil_append _ _ _ hg]
  simp only [Option.some_bind]
  rw [charsToNat_natChars]
  simp only [Option.some_bind]
  rw [dropExpect_append]
  simp only [Option.some_bind]
  rw [takeUntil_append _ _ _ hvc]
  simp only [Option.some_bind]
  rw [takeUntil_append _ _ _ ht]
  simp only [Option.some_bind]
  rw [charsToNat_natChars]
  simp only [Option.some_bind]
  rfl

/-! ### Lemmas: character classes of formatted values -/

/-- Every character of a fixed-point formatted value is a digit, a minus
sign, or a decimal point. -/
theorem formatFixed_chars (p : Nat) (q : ℚ) :
    ∀ c ∈ formatFixed p q, c.isDigit = true ∨ c = '-' ∨ c = '.' := by
  intro c hc
  have hds : ∀ x ∈ List.replicate (p + 1 - (natChars (roundHalfEven (q * (10 : ℚ) ^ p)).natAbs).length) '0'
      ++ natChars (roundHalfEven (q * (10 : ℚ) ^ p)).natAbs, x.isDigit = true := by
    intro x hx
    rcases List.mem_append.mp hx with hx | hx
    · rw [List.eq_of_mem_replicate hx]; decide
    · exact natChars_digits _ _ hx
  simp only [formatFixed, List.mem_append] at hc
  rcases hc with (hc | hc) | hc
  · split at hc
    · simp only [List.mem_singleton] at hc
      right; left; exact hc
    · simp at hc
  · left
    exact hds _ (List.take_subset _ _ hc)
  · split at hc
    · simp at hc
    · rcases List.mem_cons.mp hc with h | h
      · right; right; exact h
      · left
        exact hds _ (List.drop_subset _ _ h)

theorem formatFixed_clean (p : Nat) (q : ℚ) :
    ∀ c ∈ formatFixed p q, ¬ (c = ':') ∧ ¬ (c = rbrace) := by
  intro c hc
  rcases formatFixed_chars p q c hc with h | h | h
  · constructor <;> intro he <;> subst he <;> simp_all [Char.isDigit, rbrace]
  · subst h; constructor <;> decide
  · subst h; constructor <;> decide


/-! ### Lemmas: the renderer -/

theorem render_eq_cons (t : Token) (ts : Template) (vals : List (String × PVal)) :
    render (t :: ts) vals =
      match renderToken vals t, render ts vals with
      | .error e, _ => .error e
      | .ok _, .error e => .error e
      | .ok (s, as), .ok (rest, ras) => .ok (s ++ rest, as ++ ras) := rfl

theorem render_answers_spec (vals : List (String × PVal)) :
    ∀ (tmpl : Template) (txt : List Char) (answers : List RenderedAnswer),
      render tmpl vals = .ok (txt, answers) →
      ∀ a ∈ answers, ∃ g n p tol pv,
        Token.answer g n (.fixed p) tol ∈ tmpl ∧ lookupA vals n = some pv ∧
        a = ⟨g, formatFixed p (numOf pv), tol⟩ := by
  intro tmpl
  induction tmpl with
  | nil =>
    intro txt answers h a ha
    simp only [render, Except.ok.injEq, Prod.mk.injEq] at h
    obtain ⟨-, h2⟩ := h
    subst h2
    simp at ha
  | cons t ts ih =>
    intro txt answers h a ha
    rw [render_eq_cons] at h
    cases h1 : renderToken vals t with
    | error e => rw [h1] at h; exact absurd h (by simp)
    | ok pr =>
      cases h2 : render ts vals with
      | error e => rw [h1, h2] at h; exact absurd h (by simp)
      | ok pr2 =>
        rw [h1, h2] at h
        obtain ⟨s, as⟩ := pr
        obtain ⟨rest, ras⟩ := pr2
        simp only [Except.ok.injEq, Prod.mk.injEq] at h
        obtain ⟨-, h2'⟩ := h
        subst h2'
        rcases List.mem_append.mp ha with ha | ha
        · cases t with
          | lit str =>
            simp only [renderToken, Except.ok.injEq, Prod.mk.injEq] at h1
            obtain ⟨-, h1b⟩ := h1
            rw [← h1b] at ha
            simp at ha
          | plain n i f =>
            cases hl : lookupA vals n with
            | none =>
              simp only [renderToken, hl] at h1
              exact absurd h1 (by simp)
            | some pv =>
              simp only [renderToken, hl, Except.ok.injEq, Prod.mk.injEq] at h1
              obtain ⟨-, h1b⟩ := h1
              rw [← h1b] at ha
              simp at ha
          | answer g n fmt tol =>
            cases hl : lookupA vals n with
            | none =>
              simp only [renderToken, hl] at h1
              exact absurd h1 (by simp)
            | some pv =>
              cases fmt with
              | fixed p =>
                simp only [renderToken, hl, Except.ok.injEq, Prod.mk.injEq] at h1
                obtain ⟨-, h1b⟩ := h1
                rw [← h1b] at ha
                rw [List.mem_singleton] at ha
                exact ⟨g, n, p, tol, pv, List.mem_cons_self _ _, hl, ha⟩
        · obtain ⟨g, n, p, tol, pv, hmem, hpv, hav⟩ := ih rest ras h2 a ha
          exact ⟨g, n, p, tol, pv, List.mem_cons_of_mem _ hmem, hpv, hav⟩


theorem renderToken_missing (vals : List (String × PVal)) (t : Token) (n : String)
    (h : refName t = some n) (hl : lookupA vals n = none) :
    renderToken vals t = .error (.templateBindingError n) := by
  cases t with
  | lit s => simp [refName] at h
  | plain n' i f =>
    simp only [refName, Option.some.injEq] at h
    subst h
    simp only [renderToken, hl]
  | answer g n' fmt tol =>
    simp only [refName, Option.some.injEq] at h
    subst h
    simp only [renderToken, hl]

theorem renderToken_ok_of_present (vals : List (String × PVal)) (t : Token)
    (h : ∀ n, refName t = some n → lookupA vals n ≠ none) :
    ∃ pr, renderToken vals t = .ok pr := by
  cases hr : renderToken vals t with
  | ok pr => exact ⟨pr, rfl⟩
  | error e =>
    exfalso
    cases t with
    | lit s => simp [renderToken] at hr
    | plain n i f =>
      cases hl : lookupA vals n with
      | none => exact h n rfl hl
      | some pv =>
        simp only [renderToken, hl] at hr
        exact absurd hr (by simp)
    | answer g n fmt tol =>
      cases hl : lookupA vals n with
      | none => exact h n rfl hl
      | some pv =>
        cases fmt with
        | fixed p =>
          simp only [renderToken, hl] at hr
          exact absurd hr (by simp)

theorem render_missing_name (vals : List (String × PVal)) :
    ∀ (tmpl : Template),
      (∃ t ∈ tmpl, ∃ n, refName t = some n ∧ lookupA vals n = none) →
      ∃ n', lookupA vals n' = none ∧ (∃ t' ∈ tmpl, refName t' = some n') ∧
        render tmpl vals = .error (.templateBindingError n') := by
  intro tmpl
  induction tmpl with
  | nil =>
    rintro ⟨t, ht, -⟩
    simp at ht
  | cons t ts ih =>
    rintro ⟨t0, ht0, n0, hr0, hl0⟩
    cases hrn : refName t with
    | some n =>
      cases hl : lookupA vals n with
      | none =>
        refine ⟨n, hl, ⟨t, List.mem_cons_self _ _, hrn⟩, ?_⟩
        rw [render_eq_cons, renderToken_missing vals t n hrn hl]
      | some pv =>
        have ht0' : t0 ∈ ts := by
          rcases List.mem_cons.mp ht0 with heq | hm
          · subst heq
            rw [hrn] at hr0
            injection hr0 with hr0
            subst hr0
            rw [hl0] at hl
            exact absurd hl (by simp)
          · exact hm
        obtain ⟨n', hn'l, ⟨t', ht', hrt'⟩, hrender⟩ := ih ⟨t0, ht0', n0, hr0, hl0⟩
        obtain ⟨pr, hok⟩ := renderToken_ok_of_present vals t (by
          intro mn hm hlm
          rw [hrn] at hm
          injection hm with hm
          subst hm
          rw [hlm] at hl
          exact absurd hl (by simp))
        obtain ⟨s, as⟩ := pr
        refine ⟨n', hn'l, ⟨t', List.mem_cons_of_mem _ ht', hrt'⟩, ?_⟩
        rw [render_eq_cons, hok, hrender]
    | none =>
      have ht0' : t0 ∈ ts := by
        rcases List.mem_cons.mp ht0 with heq | hm
        · subst heq
          rw [hrn] at hr0
          exact absurd hr0 (by simp)
        · exact hm
      obtain ⟨n', hn'l, ⟨t', ht', hrt'⟩, hrender⟩ := ih ⟨t0, ht0', n0, hr0, hl0⟩
      obtain ⟨pr, hok⟩ := renderToken_ok_of_present vals t (by
        intro mn hm
        rw [hrn] at hm
        exact absurd hm (by simp))
      obtain ⟨s, as⟩ := pr
      refine ⟨n', hn'l, ⟨t', List.mem_cons_of_mem _ ht', hrt'⟩, ?_⟩
      rw [render_eq_cons, hok, hrender]


/-! ### Lemmas: serialization escaping -/

theorem xmlEscapeChar_eq (c : Char) (h1 : ¬ (c = '&')) (h2 : ¬ (c = '<')) (h3 : ¬ (c = '>')) :
    xmlEscapeChar c = [c] := by
  unfold xmlEscapeChar
  rw [if_neg h1, if_neg h2, if_neg h3]

theorem xmlEscape_id (cs : List Char)
    (h : ∀ c ∈ cs, ¬ (c = '&') ∧ ¬ (c = '<') ∧ ¬ (c = '>')) : xmlEscape cs = cs := by
  induction cs with
  | nil => rfl
  | cons x xs ih =>
    obtain ⟨h1, h2, h3⟩ := h x (List.mem_cons_self _ _)
    have hstep : xmlEscape (x :: xs) = xmlEscapeChar x ++ xmlEscape xs := by
      simp [xmlEscape]
    rw [hstep, xmlEscapeChar_eq x h1 h2 h3, ih (fun c hc => h c (List.mem_cons_of_mem _ hc))]
    rfl

theorem digit_not_xml (c : Char) (h : c.isDigit = true) :
    ¬ (c = '&') ∧ ¬ (c = '<') ∧ ¬ (c = '>') := by
  refine ⟨?_, ?_, ?_⟩ <;> intro he <;> rw [he] at h <;> exact absurd h (by decide)

/-- A serialized answer field passes through XML escaping unchanged when
its value string is made of digits, minus signs and decimal points. -/
theorem clozeChars_xml_clean (a : RenderedAnswer)
    (hv : ∀ c ∈ a.value, ¬ (c = '&') ∧ ¬ (c = '<') ∧ ¬ (c = '>')) :
    xmlEscape (clozeChars a) = clozeChars a := by
  apply xmlEscape_id
  intro c hc
  unfold clozeChars at hc
  rcases List.mem_cons.mp hc with h | hc
  · rw [h]; decide
  rcases List.mem_append.mp hc with hc | hc
  · exact digit_not_xml c (natChars_digits _ c hc)
  rcases List.mem_cons.mp hc with h | hc
  · rw [h]; decide
  rcases List.mem_append.mp hc with hc | hc
  · revert hc
    have : ∀ c ∈ ("NUMERICAL:=").data, ¬ (c = '&') ∧ ¬ (c = '<') ∧ ¬ (c = '>') := by decide
    exact this c
  rcases List.mem_append.mp hc with hc | hc
  · exact hv c hc
  rcases List.mem_cons.mp hc with h | hc
  · rw [h]; decide
  rcases List.mem_append.mp hc with hc | hc
  · exact digit_not_xml c (natChars_digits _ c hc)
  · rw [List.mem_singleton.mp hc]; decide

/-! ### Lemmas: enumeration -/

theorem lookupA_map {α β : Type} (g : String × α → β) :
    ∀ (l : List (String × α)) (name : String) (v : α),
      (name, v) ∈ l → (l.map Prod.fst).Nodup →
      lookupA (l.map (fun p => (p.1, g p))) name = some (g (name, v)) := by
  intro l
  induction l with
  | nil => intro name v hm _; simp at hm
  | cons hd tl ih =>
    intro name v hm hnd
    obtain ⟨n0, v0⟩ := hd
    simp only [List.map_cons] at hnd
    obtain ⟨hn0, hndtl⟩ := List.nodup_cons.mp hnd
    simp only [List.map_cons, lookupA]
    by_cases he : n0 = name
    · subst he
      rw [if_pos rfl]
      rcases List.mem_cons.mp hm with heq | hmem
      · injection heq with h1 h2
        subst h2
        rfl
      · exact absurd (List.mem_map.mpr ⟨(n0, v), hmem, rfl⟩) hn0
    · rw [if_neg he]
      rcases List.mem_cons.mp hm with heq | hmem
      · injection heq with h1 h2
        exact absurd h1.symm he
      · exact ih name v hmem hndtl

theorem cprod_zipped_ok (space : ParameterSpace) (K : Nat) (hne : space ≠ [])
    (hK : ∀ p ∈ space, p.2.length = K) :
    cprod .zipped space =
      .ok ((List.range K).map (fun i => space.map (fun p => (p.1, p.2.getD i (PVal.num 0))))) := by
  obtain ⟨hd, tl, rfl⟩ := List.exists_cons_of_ne_nil hne
  obtain ⟨n0, vs0⟩ := hd
  have h0 : vs0.length = K := hK (n0, vs0) (List.mem_cons_self _ _)
  have hall : ((n0, vs0) :: tl).all (fun p => p.2.length = vs0.length) = true := by
    rw [List.all_eq_true]
    intro p hp
    rw [decide_eq_true_eq, hK p hp, h0]
  simp only [cprod]
  rw [hall]
  rw [h0]
  rfl

/-! ### Lemmas: invocation and numbering -/

theorem invokeAll_error (model : Combination → Option OutputSet) :
    ∀ (l : List Combination) (k i : Nat), i < l.length →
      failsB model (l.getD i []) = true →
      (∀ j, j < i → failsB model (l.getD j []) = false) →
      invokeAll model k l = .error (.modelEvaluationError (k + i)) := by
  intro l
  induction l with
  | nil => intro k i hi _ _; simp at hi
  | cons cb cbs ih =>
    intro k i hi hf hprev
    cases i with
    | zero =>
      rw [List.getD_cons_zero] at hf
      unfold failsB at hf
      cases hm : model cb with
      | none => simp only [invokeAll, hm]; rfl
      | some outs =>
        rw [hm] at hf
        simp only [invokeAll, hm]
        rw [if_pos hf]
        rfl
    | succ i' =>
      have h0 : failsB model cb = false := by
        have := hprev 0 (Nat.succ_pos _)
        rwa [List.getD_cons_zero] at this
      unfold failsB at h0
      rw [List.getD_cons_succ] at hf
      cases hm : model cb with
      | none => rw [hm] at h0; exact absurd h0 (by simp)
      | some outs =>
        rw [hm] at h0
        have hrec := ih (k + 1) i' (by simpa using hi) hf
          (fun j hj => by
            have := hprev (j + 1) (by omega)
            rwa [List.getD_cons_succ] at this)
        have harith : k + 1 + i' = k + (i' + 1) := by omega
        rw [harith] at hrec
        simp only [invokeAll, hm]
        have h0x : (outs.any fun p => p.2.isNan) = false := h0
        rw [if_neg (by rw [h0x]; exact Bool.false_ne_true)]
        rw [hrec]

theorem numberItems_names (base : List Char) :
    ∀ (l : List (List Char × List RenderedAnswer)) (k : Nat),
      (numberItems base k l).map QuestionItem.name =
        (List.range l.length).map (fun i => base ++ '_' :: natChars (k + i + 1)) := by
  intro l
  induction l with
  | nil => intro k; simp [numberItems]
  | cons hd tl ih =>
    intro k
    obtain ⟨b, a⟩ := hd
    simp only [numberItems, List.map_cons, List.length_cons, List.range_succ_eq_map,
      List.map_map]
    have h01 : k + 0 + 1 = k + 1 := by omega
    rw [h01]
    refine congrArg (List.cons _) ?_
    rw [ih (k + 1)]
    apply List.map_congr_left
    intro i hi
    simp only [Function.comp_apply]
    have h2 : k + 1 + i + 1 = k + (i + 1) + 1 := by omega
    rw [h2]

theorem numberItems_length (base : List Char) :
    ∀ (l : List (List Char × List RenderedAnswer)) (k : Nat),
      (numberItems base k l).length = l.length := by
  intro l
  induction l with
  | nil => intro k; rfl
  | cons hd tl ih =>
    intro k
    obtain ⟨b, a⟩ := hd
    simp [numberItems, ih]

theorem questionName_inj (base : List Char) : Function.Injective (fun i => base ++ '_' :: natChars (i + 1)) := by
  intro i j h
  simp only [List.append_cancel_left_eq, List.cons.injEq, true_and] at h
  have := natChars_injective h
  omega

/-! ### The claims -/

/-- Claim C1: for every ParameterSpace under the zipped enumeration policy
whose parameter value sequences all have the same length `K`, the
enumeration operation (`cprod`) yields exactly `K` combinations, and for
every index `i < K` and every parameter name, combination `i` maps that
parameter to the `i`-th element of its candidate sequence. -/
theorem c1_zipped_enumeration (space : ParameterSpace) (K : Nat)
    (hne : space ≠ []) (hnd : (space.map Prod.fst).Nodup)
    (hK : ∀ p ∈ space, p.2.length = K) :
    ∃ cs, cprod .zipped space = .ok cs ∧ cs.length = K ∧
      ∀ i, i < K → ∃ cb, cs[i]? = some cb ∧
        ∀ name vals, (name, vals) ∈ space →
          ∃ v, vals[i]? = some v ∧ lookupA cb name = some v := by
  refine ⟨_, cprod_zipped_ok space K hne hK, ?_, ?_⟩
  · simp
  · intro i hi
    refine ⟨space.map (fun p => (p.1, p.2.getD i (PVal.num 0))), ?_, ?_⟩
    · rw [List.getElem?_map, List.getElem?_range hi]
      rfl
    · intro name vals hmem
      have hlen : vals.length = K := hK (name, vals) hmem
      refine ⟨vals.getD i (PVal.num 0), ?_, ?_⟩
      · have hilt : i < vals.length := by omega
        rw [List.getElem?_eq_getElem hilt]
        rw [List.getD_eq_getElem vals (PVal.num 0) hilt]
      · exact lookupA_map (fun p => p.2.getD i (PVal.num 0)) space name vals hmem hnd

/-- Witness for C1 on the concrete space of one parameter with two values. -/
theorem c1_zipped_enumeration_witness :
    ∃ cs, cprod .zipped sampleSpace = .ok cs ∧ cs.length = 2 ∧
      ∀ i, i < 2 → ∃ cb, cs[i]? = some cb ∧
        ∀ name vals, (name, vals) ∈ sampleSpace →
          ∃ v, vals[i]? = some v ∧ lookupA cb name = some v :=
  c1_zipped_enumeration sampleSpace 2 (by decide) (by decide) (by decide)

/-- Claim C2: for a ParameterSpace of two parameters with 2 candidate
values each, the zipped policy yields exactly 2 combinations (not 4),
while the full cross-product policy yields exactly 4. -/
theorem c2_zipped_vs_cross_product (space : ParameterSpace)
    (hlen : space.length = 2) (hK : ∀ p ∈ space, p.2.length = 2) :
    (∃ cs, cprod .zipped space = .ok cs ∧ cs.length = 2) ∧
    (∃ cs, cprod .crossProduct space = .ok cs ∧ cs.length = 4) := by
  match space, hlen with
  | [p, q], _ =>
    obtain ⟨n1, vs1⟩ := p
    obtain ⟨n2, vs2⟩ := q
    have h1 : vs1.length = 2 := hK (n1, vs1) (by simp)
    have h2 : vs2.length = 2 := hK (n2, vs2) (by simp)
    match vs1, h1 with
    | [a, b], _ =>
      match vs2, h2 with
      | [c, d], _ =>
        constructor
        · refine ⟨_, rfl, ?_⟩
          rfl
        · refine ⟨_, rfl, ?_⟩
          rfl

/-- Witness for C2 on a concrete two-parameter space. -/
theorem c2_zipped_vs_cross_product_witness :
    (∃ cs, cprod .zipped
        [("a", [PVal.num 1, PVal.num 2]), ("b", [PVal.num 3, PVal.num 4])] =
        .ok cs ∧ cs.length = 2) ∧
    (∃ cs, cprod .crossProduct
        [("a", [PVal.num 1, PVal.num 2]), ("b", [PVal.num 3, PVal.num 4])] =
        .ok cs ∧ cs.length = 4) :=
  c2_zipped_vs_cross_product _ (by decide) (by decide)

/-- Claim C3: for every ParameterSpace with mismatched candidate sequence
lengths, zipped enumeration fails with a `configurationError` before the
model is invoked: the whole pipeline fails with that error for every model
function (and every template), so no model invocation can have occurred. -/
theorem c3_mismatched_lengths_fail_fast (space : ParameterSpace)
    (h : ∃ p ∈ space, ∃ q ∈ space, p.2.length ≠ q.2.length) :
    ∃ msg, ∀ (question_name : String) (model : Combination → Option OutputSet)
        (text : Template),
      generate_quiz .zipped question_name model space text =
        .error (.configurationError msg) := by
  obtain ⟨p, hp, q, hq, hpq⟩ := h
  cases space with
  | nil => simp at hp
  | cons hd tl =>
    obtain ⟨n0, vs0⟩ := hd
    have hall : ((n0, vs0) :: tl).all (fun r => r.2.length = vs0.length) = false := by
      by_contra hcon
      rw [Bool.not_eq_false, List.all_eq_true] at hcon
      have hp' := hcon p hp
      have hq' := hcon q hq
      rw [decide_eq_true_eq] at hp' hq'
      exact hpq (hp'.trans hq'.symm)
    refine ⟨"zipped enumeration requires equal parameter sequence lengths",
      fun qn model text => ?_⟩
    simp only [generate_quiz, cprod]
    rw [hall]
    rfl

/-- Witness for C3 on a concrete space with lengths 1 and 2. -/
theorem c3_mismatched_lengths_fail_fast_witness :
    ∃ msg, ∀ (question_name : String) (model : Combination → Option OutputSet)
        (text : Template),
      generate_quiz .zipped question_name model
          [("a", [PVal.num 1]), ("b", [PVal.num 1, PVal.num 2])] text =
        .error (.configurationError msg) :=
  c3_mismatched_lengths_fail_fast _ (by decide)

/-- Claim C4: when the model raises or returns a non-finite (NaN) value on
the combination at index `i` (and succeeds on all earlier ones), the
pipeline raises a `modelEvaluationError` carrying exactly that index, and
no artifact is produced. -/
theorem c4_nan_aborts_pipeline (policy : EnumPolicy) (qn : String)
    (model : Combination → Option OutputSet) (space : ParameterSpace)
    (tmpl : Template) (combos : List Combination) (i : Nat)
    (hc : cprod policy space = .ok combos)
    (hi : i < combos.length)
    (hf : failsB model (combos.getD i []) = true)
    (hprev : ∀ j, j < i → failsB model (combos.getD j []) = false) :
    generate_quiz policy qn model space tmpl = .error (.modelEvaluationError i) ∧
    runPipeline policy qn model space tmpl = none := by
  have hinv := invokeAll_error model combos 0 i hi hf hprev
  rw [Nat.zero_add] at hinv
  have hg : generate_quiz policy qn model space tmpl =
      .error (.modelEvaluationError i) := by
    unfold generate_quiz
    simp only [hc, hinv]
  refine ⟨hg, ?_⟩
  unfold runPipeline
  rw [hg]

/-- Witness for C4: a model that returns NaN on the only combination. -/
theorem c4_nan_aborts_pipeline_witness :
    generate_quiz .zipped "w" (fun _ => some [("y", MFloat.nan)])
        [("a", [PVal.num 1])] [] = .error (.modelEvaluationError 0) ∧
    runPipeline .zipped "w" (fun _ => some [("y", MFloat.nan)])
        [("a", [PVal.num 1])] [] = none :=
  c4_nan_aborts_pipeline .zipped "w" (fun _ => some [("y", MFloat.nan)])
    [("a", [PVal.num 1])] [] [[("a", PVal.num 1)]] 0 rfl (by decide) rfl
    (fun j hj => absurd hj (by omega))

/-- Claim C5: the pipeline is a deterministic function of its inputs:
running it twice on an identical policy, question name, model, parameter
space and template yields identical artifacts (and identical documents). -/
theorem c5_pipeline_deterministic (p1 p2 : EnumPolicy) (n1 n2 : String)
    (m1 m2 : Combination → Option OutputSet) (s1 s2 : ParameterSpace)
    (t1 t2 : Template)
    (hp : p1 = p2) (hn : n1 = n2) (hm : m1 = m2) (hs : s1 = s2) (ht : t1 = t2) :
    runPipeline p1 n1 m1 s1 t1 = runPipeline p2 n2 m2 s2 t2 ∧
    generate_quiz p1 n1 m1 s1 t1 = generate_quiz p2 n2 m2 s2 t2 := by
  subst hp
  subst hn
  subst hm
  subst hs
  subst ht
  exact ⟨rfl, rfl⟩

/-- Witness for C5 on the `celine.mdl.py` call site. -/
theorem c5_pipeline_deterministic_witness :
    runPipeline .zipped celine.question_name celine.problem_fun
        celine.x_ranges celine.text =
      runPipeline .zipped celine.question_name celine.problem_fun
        celine.x_ranges celine.text ∧
    generate_quiz .zipped celine.question_name celine.problem_fun
        celine.x_ranges celine.text =
      generate_quiz .zipped celine.question_name celine.problem_fun
        celine.x_ranges celine.text :=
  c5_pipeline_deterministic .zipped .zipped celine.question_name
    celine.question_name celine.problem_fun celine.problem_fun
    celine.x_ranges celine.x_ranges celine.text celine.text
    rfl rfl rfl rfl rfl

/-- Claim C6: every answer field of a rendered question carries exactly the
merged value formatted to the precision declared in the template (no
recomputation or re-rounding), its serialized cloze form passes XML
escaping unchanged, and parsing it back out of the artifact recovers
exactly that formatted expected value (with the declared tolerance). -/
theorem c6_answer_round_trip (tmpl : Template) (vals : List (String × PVal))
    (txt : List Char) (answers : List RenderedAnswer)
    (h : render tmpl vals = .ok (txt, answers)) :
    ∀ a ∈ answers, ∃ g n p tol pv,
      Token.answer g n (.fixed p) tol ∈ tmpl ∧
      lookupA vals n = some pv ∧
      a = ⟨g, formatFixed p (numOf pv), tol⟩ ∧
      xmlEscape (clozeChars a) = clozeChars a ∧
      parseCloze (clozeChars a) = some (g, formatFixed p (numOf pv), tol) := by
  intro a ha
  obtain ⟨g, n, p, tol, pv, hmem, hpv, hav⟩ :=
    render_answers_spec vals tmpl txt answers h a ha
  subst hav
  refine ⟨g, n, p, tol, pv, hmem, hpv, rfl, ?_, ?_⟩
  · apply clozeChars_xml_clean
    intro c hc
    rcases formatFixed_chars p (numOf pv) c hc with hd | hd | hd
    · exact digit_not_xml c hd
    · rw [hd]; decide
    · rw [hd]; decide
  · apply parseCloze_clozeChars
    intro c hc
    exact formatFixed_clean p (numOf pv) c hc

/-- Witness for C6 on a concrete template, value set and rendered answer. -/
theorem c6_answer_round_trip_witness :
    ∃ g n p tol pv,
      Token.answer g n (.fixed p) tol ∈ sampleTemplate ∧
      lookupA [("y", PVal.num (7 / 2))] n = some pv ∧
      (⟨2, ['4'], 3⟩ : RenderedAnswer) = ⟨g, formatFixed p (numOf pv), tol⟩ ∧
      xmlEscape (clozeChars ⟨2, ['4'], 3⟩) = clozeChars ⟨2, ['4'], 3⟩ ∧
      parseCloze (clozeChars ⟨2, ['4'], 3⟩) =
        some (g, formatFixed p (numOf pv), tol) :=
  c6_answer_round_trip sampleTemplate [("y", PVal.num (7 / 2))]
    (clozeChars ⟨2, ['4'], 3⟩) [⟨2, ['4'], 3⟩] (by with_unfolding_all rfl)
    ⟨2, ['4'], 3⟩ (List.mem_singleton.mpr rfl)

/-- Counterexample for C7: on the ParameterSpace exactly as written in the
claim (`m: [10], ρ: [1000], d: [40]`), the mass-flow model cannot even be
evaluated: the model reads the velocity `w`, which that space does not
contain (and `m` is the model's output name, not an input), so the
pipeline aborts with a `modelEvaluationError` at combination 0 instead of
producing 1 question. -/
theorem c7_scenario_counterexample :
    generate_quiz .zipped celine.question_name celine.problem_fun
        [("m", [PVal.num 10]), ("ρ", [PVal.num 1000]), ("d", [PVal.num 40])]
        [Token.answer 1 ("m") (.fixed 1) 5] =
      .error (.modelEvaluationError 0) := rfl

/-- Claim C7 (amended): with the input parameter `w: [10]` in place of the
claim's `m: [10]` (the model reads `ρ`, `d`, `w` and outputs `m`), the
pipeline on `{w: [10], ρ: [1000], d: [40]}` under zipped enumeration with
a template embedding `m` at precision `.1f` produces exactly 1 question,
named `celine_1`, whose embedded answer is the mass-flow value correctly
rounded to 1 decimal place (`12.6`). -/
theorem c7_scenario_amended :
    ∃ doc,
      generate_quiz .zipped celine.question_name celine.problem_fun
          [("w", [PVal.num 10]), ("ρ", [PVal.num 1000]), ("d", [PVal.num 40])]
          [Token.answer 1 ("m") (.fixed 1) 5] = .ok doc ∧
      doc.questions.length = 1 ∧
      doc.questions.map QuestionItem.name = [("celine_1").data] ∧
      doc.questions.map QuestionItem.answers =
        [[⟨1, formatFixed 1 (1000 * 10 * celine.npPi / 4 * 40 ^ 2 / 1000000), 5⟩]] ∧
      formatFixed 1 (1000 * 10 * celine.npPi / 4 * 40 ^ 2 / 1000000) =
        ("12.6").data := by
  refine ⟨(generate_quiz .zipped celine.question_name celine.problem_fun
      [("w", [PVal.num 10]), ("ρ", [PVal.num 1000]), ("d", [PVal.num 40])]
      [Token.answer 1 ("m") (.fixed 1) 5]).toOption.getD default,
    ?_, ?_, ?_, ?_, ?_⟩ <;> with_unfolding_all rfl

/-- Claim C8: each question produced by a run is named
`{question base name}_{1-based position in enumeration order}`, and all
question names within one document are distinct. -/
theorem c8_question_names_unique (policy : EnumPolicy) (qn : String)
    (model : Combination → Option OutputSet) (space : ParameterSpace)
    (tmpl : Template) (doc : QuizDocument)
    (h : generate_quiz policy qn model space tmpl = .ok doc) :
    doc.questions.map QuestionItem.name =
      (List.range doc.questions.length).map
        (fun i => qn.data ++ '_' :: natChars (i + 1)) ∧
    (doc.questions.map QuestionItem.name).Nodup := by
  have hnames : doc.questions.map QuestionItem.name =
      (List.range doc.questions.length).map
        (fun i => qn.data ++ '_' :: natChars (i + 1)) := by
    unfold generate_quiz at h
    cases h1 : cprod policy space with
    | error e => simp only [h1] at h; exact absurd h (by simp)
    | ok combos =>
      cases h2 : invokeAll model 0 combos with
      | error e => simp only [h1, h2] at h; exact absurd h (by simp)
      | ok outs =>
        cases h3 : renderAll tmpl (combos.zip outs) with
        | error e => simp only [h1, h2, h3] at h; exact absurd h (by simp)
        | ok rendered =>
          simp only [h1, h2, h3, Except.ok.injEq] at h
          subst h
          have hn := numberItems_names qn.data rendered 0
          simp only [Nat.zero_add] at hn
          rw [numberItems_length qn.data rendered 0, hn]
  refine ⟨hnames, ?_⟩
  rw [hnames]
  exact (List.nodup_range _).map (questionName_inj qn.data)

/-- Witness for C8 on the sample two-question run. -/
theorem c8_question_names_unique_witness :
    sampleDoc.questions.map QuestionItem.name =
      (List.range sampleDoc.questions.length).map
        (fun i => ("w").data ++ '_' :: natChars (i + 1)) ∧
    (sampleDoc.questions.map QuestionItem.name).Nodup :=
  c8_question_names_unique .zipped "w" sampleModel sampleSpace sampleTemplate
    sampleDoc rfl

/-- Claim C9: when a template placeholder references a name absent from the
merged values, rendering fails with a fatal `templateBindingError` naming a
missing field (the first missing reference); it never substitutes a silent
blank, since no rendered text is produced at all. -/
theorem c9_missing_placeholder_fatal (tmpl : Template)
    (vals : List (String × PVal)) (t : Token) (n : String)
    (ht : t ∈ tmpl) (hr : refName t = some n) (hl : lookupA vals n = none) :
    ∃ missing, lookupA vals missing = none ∧
      (∃ t2 ∈ tmpl, refName t2 = some missing) ∧
      render tmpl vals = .error (.templateBindingError missing) :=
  render_missing_name vals tmpl ⟨t, ht, n, hr, hl⟩

/-- Witness for C9: a template referencing `x` against empty values. -/
theorem c9_missing_placeholder_fatal_witness :
    ∃ missing, lookupA ([] : List (String × PVal)) missing = none ∧
      (∃ t2 ∈ [Token.plain ("x") none none], refName t2 = some missing) ∧
      render [Token.plain ("x") none none] [] =
        .error (.templateBindingError missing) :=
  c9_missing_placeholder_fatal [Token.plain ("x") none none] []
    (Token.plain ("x") none none) "x" (List.mem_singleton.mpr rfl) rfl rfl

/-- Claim C10 (implicit): in `CM4_v_hum.mdl.py`, for every combination with
`m ≠ 0` the 2×2 system of `vap_hum` is diagonal with nonzero entries `m*c`
and `m*l`, so the solve succeeds and returns exactly
`(θo, wo + QlVH/(m*l))`; consequently the reported outlet temperature
`θVH` equals the inlet temperature `θo`, and the reported latent load
`QlVH` equals `2496*mv/3600` kW, a function of `mv` alone (independent of
`m` and of the inlet humidity). -/
theorem c10_vap_hum_diagonal (psyW psyPhi : ℚ → ℚ → ℚ) (m θo φo0 mv0 : ℚ)
    (hm : m ≠ 0) :
    CM4_v_hum.vap_hum psyW m θo (φo0 / 100) (CM4_v_hum.l * (mv0 / 3600)) =
      some (θo, psyW θo (φo0 / 100) +
        CM4_v_hum.l * (mv0 / 3600) / (m * CM4_v_hum.l)) ∧
    CM4_v_hum.problem_fun psyW psyPhi
        [("m", .num m), ("air_i", .vec [θo, φo0]), ("mv", .num mv0)] =
      some [("θVH", .fin θo),
            ("φVH", .fin (psyPhi θo (psyW θo (φo0 / 100) +
              CM4_v_hum.l * (mv0 / 3600) / (m * CM4_v_hum.l)) * 100)),
            ("QlVH", .fin (2496 * mv0 / 3600))] := by
  have hc : (CM4_v_hum.c : ℚ) ≠ 0 := by norm_num [CM4_v_hum.c]
  have hl : (CM4_v_hum.l : ℚ) ≠ 0 := by norm_num [CM4_v_hum.l]
  have hdet : m * CM4_v_hum.c * (m * CM4_v_hum.l) - 0 * 0 ≠ 0 := by
    simp only [mul_zero, sub_zero, zero_mul]
    exact mul_ne_zero (mul_ne_zero hm hc) (mul_ne_zero hm hl)
  have hmain : CM4_v_hum.vap_hum psyW m θo (φo0 / 100)
      (CM4_v_hum.l * (mv0 / 3600)) =
      some (θo, psyW θo (φo0 / 100) +
        CM4_v_hum.l * (mv0 / 3600) / (m * CM4_v_hum.l)) := by
    unfold CM4_v_hum.vap_hum CM4_v_hum.linsolve2
    rw [if_neg hdet]
    have e1 : (m * CM4_v_hum.c * θo * (m * CM4_v_hum.l) -
        0 * (m * CM4_v_hum.l * psyW θo (φo0 / 100) +
          CM4_v_hum.l * (mv0 / 3600))) /
        (m * CM4_v_hum.c * (m * CM4_v_hum.l) - 0 * 0) = θo := by
      field_simp
      ring
    have e2 : (m * CM4_v_hum.c * (m * CM4_v_hum.l * psyW θo (φo0 / 100) +
        CM4_v_hum.l * (mv0 / 3600)) - 0 * (m * CM4_v_hum.c * θo)) /
        (m * CM4_v_hum.c * (m * CM4_v_hum.l) - 0 * 0) =
        psyW θo (φo0 / 100) + CM4_v_hum.l * (mv0 / 3600) / (m * CM4_v_hum.l) := by
      field_simp
      ring
    rw [e1, e2]
  refine ⟨hmain, ?_⟩
  have hlook : CM4_v_hum.problem_fun psyW psyPhi
      [("m", .num m), ("air_i", .vec [θo, φo0]), ("mv", .num mv0)] =
      match CM4_v_hum.vap_hum psyW m θo (φo0 / 100)
          (CM4_v_hum.l * (mv0 / 3600)) with
      | none => none
      | some sol =>
        some [("θVH", .fin sol.1),
              ("φVH", .fin (psyPhi sol.1 sol.2 * 100)),
              ("QlVH", .fin (CM4_v_hum.l * (mv0 / 3600) / 1000))] := rfl
  rw [hlook, hmain]
  have e3 : CM4_v_hum.l * (mv0 / 3600) / 1000 = 2496 * mv0 / 3600 := by
    rw [CM4_v_hum.l]
    ring
  rw [e3]

/-- Witness for C10 at the first scenario of `CM4_v_hum.mdl.py`
(`m = 12.75`, `θo = 35`, `φo = 40`, `mv = 200`), with stand-in psychrometric
functions. -/
theorem c10_vap_hum_diagonal_witness :
    CM4_v_hum.vap_hum (fun _ _ => 1 / 100) (1275 / 100) 35 (40 / 100)
        (CM4_v_hum.l * (200 / 3600)) =
      some (35, 1 / 100 +
        CM4_v_hum.l * (200 / 3600) / ((1275 / 100) * CM4_v_hum.l)) ∧
    CM4_v_hum.problem_fun (fun _ _ => 1 / 100) (fun _ _ => 1 / 2)
        [("m", .num (1275 / 100)), ("air_i", .vec [35, 40]), ("mv", .num 200)] =
      some [("θVH", .fin 35),
            ("φVH", .fin (1 / 2 * 100)),
            ("QlVH", .fin (2496 * 200 / 3600))] :=
  c10_vap_hum_diagonal (fun _ _ => 1 / 100) (fun _ _ => 1 / 2) (1275 / 100)
    35 40 200 (by norm_num)

end Celine
